import Mathlib

deriving instance DecidableEq for Except

/-!
Shallow embedding of the rpfm `PackedFile` entry storage
(`src/packfile/packedfile.rs`) and of the table-decode command dispatch
(`rpfm_ui/src/background_thread.rs`), together with theorems checking the
specification's claims about them.

Bytes are modelled as `List Nat` (each element one byte), fallible Rust
`Result` values as `Except Error`, and the shared `Arc<Mutex<BufReader<File>>>`
handle of an `OnDisk` body as the file's byte contents (the sequential
seek-then-read of a region depends only on those contents; the concurrent
behaviour of the handle is modelled separately below for the locking claim).
-/

namespace Rpfm

/-- Error kinds from `rpfm_error` that the embedded operations can surface:
IO failures, bad compression frames, and lookups of missing entries. -/
inductive Error
  | io
  | corruptData
  | packedFileNotFound
deriving DecidableEq

/-- Archive format versions (`PFHVersion` in `rpfm_lib`); the entry's
`is_encrypted` field carries the source archive's version. -/
inductive PFHVersion
  | pfh5
  | pfh4
  | pfh3
  | pfh0
deriving DecidableEq

/-- Modelled from the spec: `decrypt_packed_file` (in `crate::packfile`, not
under `src/`): a deterministic, self-inverse, XOR-family obfuscation transform
that allocates a fresh buffer and never mutates its input. The call site in
`packedfile.rs` passes no version argument, so the model is a fixed XOR key. -/
def decrypt_packed_file (data : List Nat) : List Nat :=
  data.map (fun b => b ^^^ 0xA5)

/-- Modelled from the spec: `decompress_data` (in
`crate::packfile::compression`, not under `src/`): a block-oriented lossless
decompressor that fails with `CorruptData` on malformed length/frame headers.
Modelled as a 4-byte little-endian length header followed by the payload;
decompression fails if the header is missing or does not match the payload. -/
def decompress_data (data : List Nat) : Except Error (List Nat) :=
  match data with
  | n0 :: n1 :: n2 :: n3 :: rest =>
    if rest.length = n0 + 256 * n1 + 65536 * n2 + 16777216 * n3 then .ok rest
    else .error .corruptData
  | _ => .error .corruptData

/-- The body of a `PackedFile` (`PackedFileData` in `packedfile.rs`):
either loaded in memory together with the current state of the bytes
(still compressed? still encrypted?), or a disk-backed descriptor holding the
shared file handle (modelled by the file's contents), the byte offset of the
body, and its on-wire size. -/
inductive PackedFileData
  | onMemory (data : List Nat) (is_compressed : Bool) (is_encrypted : Bool)
  | onDisk (file : List Nat) (position : Nat) (size : Nat)
deriving DecidableEq

/-- One logical file inside an archive (`PackedFile` in `packedfile.rs`). -/
structure PackedFile where
  path : List String
  timestamp : Int
  is_compressed : Bool
  is_encrypted : Option PFHVersion
  data : PackedFileData
deriving DecidableEq

/-- Seek the shared handle to `position` and read exactly `size` bytes
(the `seek(SeekFrom::Start(position))` + `read_exact` pair of the source,
executed sequentially). `read_exact` fails with an IO error when fewer than
`size` bytes are available from `position`. -/
def read_exact_at (file : List Nat) (position size : Nat) : Except Error (List Nat) :=
  if position + size ≤ file.length then .ok ((file.drop position).take size)
  else .error .io

/-- `PackedFile::load_data`: loads the body from disk if it is not loaded yet,
without decrypting or decompressing it; returns the updated entry (`&mut self`
embedded as state passing; an error leaves the entry unchanged, matching the
early `?` return of the source before `self.data` is assigned). -/
def load_data (pf : PackedFile) : Except Error PackedFile :=
  match pf.data with
  | .onDisk file position size =>
    match read_exact_at file position size with
    | .error e => .error e
    | .ok data =>
      .ok { pf with data := .onMemory data pf.is_compressed pf.is_encrypted.isSome }
  | .onMemory _ _ _ => .ok pf

/-- `PackedFile::get_data`: reads the body from disk if it is not loaded yet
and returns the decoded bytes, without storing them (`&self`: the entry is not
mutated). In-memory bodies are decoded according to the cached body flags,
on-disk bodies according to the entry's `is_encrypted` / `is_compressed`
fields; in both cases decryption is applied before decompression. -/
def get_data (pf : PackedFile) : Except Error (List Nat) :=
  match pf.data with
  | .onMemory data is_compressed is_encrypted =>
    let data := if is_encrypted then decrypt_packed_file data else data
    if is_compressed then decompress_data data else .ok data
  | .onDisk file position size =>
    match read_exact_at file position size with
    | .error e => .error e
    | .ok data =>
      let data := if pf.is_encrypted.isSome then decrypt_packed_file data else data
      if pf.is_compressed then decompress_data data else .ok data

/-- `PackedFile::get_data_and_keep_it`: like `get_data` but caches the decoded
bytes in memory with both body flags cleared (`&mut self` embedded as state
passing: the second component is the entry after the call). On the in-memory
branch a decompression failure leaves the already-decrypted bytes stored with
the flags untouched, exactly as the source's in-place mutation does; on the
on-disk branch any failure leaves the body on disk. -/
def get_data_and_keep_it (pf : PackedFile) : Except Error (List Nat) × PackedFile :=
  match pf.data with
  | .onMemory data is_compressed is_encrypted =>
    let data1 := if is_encrypted then decrypt_packed_file data else data
    if is_compressed then
      match decompress_data data1 with
      | .error e => (.error e, { pf with data := .onMemory data1 is_compressed is_encrypted })
      | .ok data2 => (.ok data2, { pf with data := .onMemory data2 false false })
    else (.ok data1, { pf with data := .onMemory data1 false false })
  | .onDisk file position size =>
    match read_exact_at file position size with
    | .error e => (.error e, pf)
    | .ok data =>
      let data := if pf.is_encrypted.isSome then decrypt_packed_file data else data
      match (if pf.is_compressed then decompress_data data else .ok data) with
      | .error e => (.error e, pf)
      | .ok data => (.ok data, { pf with data := .onMemory data false false })

/-- `PackedFile::get_data` takes `&self` (a shared borrow), so its
state-passing reading returns the entry unchanged alongside the result. -/
def get_data_st (pf : PackedFile) : Except Error (List Nat) × PackedFile :=
  (get_data pf, pf)

/-- `PackedFile::set_data`: replaces the body with the given bytes, stored in
memory with both body flags cleared. -/
def set_data (pf : PackedFile) (data : List Nat) : PackedFile :=
  { pf with data := .onMemory data false false }

/-- `PackedFile::get_size`: the length of the in-memory buffer (as `u32`,
hence reduced modulo 2^32) for loaded bodies, and the recorded on-wire size
for on-disk bodies. It is a pure function of the entry: it neither mutates
the entry nor touches the disk. -/
def get_size (pf : PackedFile) : Nat :=
  match pf.data with
  | .onMemory data _ _ => data.length % 2 ^ 32
  | .onDisk _ _ size => size

/-! Table-decode command dispatch (`Command::DecodePackedFileTable` in
`rpfm_ui/src/background_thread.rs`). The archive is modelled as the list of
its entries; the pieces not under `src/` are modelled from the spec. -/

/-- The decoded typed representations relevant to the dispatch
(`DecodedPackedFile` in `rpfm_lib`, not under `src/`): DB tables,
localisation tables, and the remaining kinds the table command ignores. -/
inductive DecodedPackedFile
  | db (table : List (List Nat))
  | loc (table : List (List Nat))
  | text (contents : List Nat)
  | other
deriving DecidableEq

/-- The responses the table-decode command can send back
(`Response` in `rpfm_ui/src/communications.rs`, not under `src/`). -/
inductive Response
  | dbPackedFileInfo (table : List (List Nat))
  | locPackedFileInfo (table : List (List Nat))
  | unknown
  | error (e : Error)
deriving DecidableEq

/-- Modelled from the spec: `PackFile::get_ref_mut_packed_file_by_path`
(not under `src/`) is the spec's `lookup(path) -> Option<&Entry>`: the entry
of the archive whose full path equals the given path, if any. -/
def get_packed_file_by_path (pack_file : List PackedFile) (path : List String) :
    Option PackedFile :=
  pack_file.find? (fun pf => pf.path = path)

/-- Writing back through the mutable borrow that
`get_ref_mut_packed_file_by_path` hands out: the entry at `path` (unique by
the spec's no-duplicate-paths invariant) is replaced by `new`. -/
def set_packed_file_by_path (pack_file : List PackedFile) (path : List String)
    (new : PackedFile) : List PackedFile :=
  pack_file.map (fun pf => if pf.path = path then new else pf)

/-- The `Command::DecodePackedFileTable(path)` arm of `background_loop`:
look the entry up by path; if found, decode it (`decode_return_ref`, not under
`src/`, is passed in as a function that may also update the entry's cached
decoded state) and answer with the typed table for DB/Loc results, `Unknown`
for other kinds, or the decode error; if no entry has that path, answer
`Error(PackedFileNotFound)`. Returns the response and the archive after the
command. -/
def decode_packed_file_table
    (decode_return_ref : PackedFile → Except Error DecodedPackedFile × PackedFile)
    (pack_file_decoded : List PackedFile) (path : List String) :
    Response × List PackedFile :=
  match get_packed_file_by_path pack_file_decoded path with
  | some packed_file =>
    match decode_return_ref packed_file with
    | (.ok (.db table), packed_file2) =>
      (.dbPackedFileInfo table, set_packed_file_by_path pack_file_decoded path packed_file2)
    | (.ok (.loc table), packed_file2) =>
      (.locPackedFileInfo table, set_packed_file_by_path pack_file_decoded path packed_file2)
    | (.ok _, packed_file2) =>
      (.unknown, set_packed_file_by_path pack_file_decoded path packed_file2)
    | (.error e, packed_file2) =>
      (.error e, set_packed_file_by_path pack_file_decoded path packed_file2)
  | none => (.error .packedFileNotFound, pack_file_decoded)

/-! Concurrent access to the shared file handle. Several `OnDisk` entries of
one archive share one `Arc<Mutex<BufReader<File>>>`; the handle has a current
cursor and each `file.lock().unwrap().xxx(...)` call is one atomic,
lock-protected operation on it. The source performs the seek and the
subsequent `read_exact` through two separate `lock()` calls, so they are two
separate critical sections, and operations of other threads may interleave
between them. -/

/-- The shared `BufReader<File>` handle: file contents plus current cursor. -/
structure FileHandle where
  contents : List Nat
  cursor : Nat
deriving DecidableEq

/-- One atomic, lock-protected operation on the shared handle. -/
inductive FileOp
  | seek (position : Nat)
  | read (size : Nat)
deriving DecidableEq

/-- Effect of one lock-protected operation: `seek` repositions the cursor;
`read` returns `size` bytes from the current cursor and advances it. -/
def run_file_op (h : FileHandle) (op : FileOp) : FileHandle × List (List Nat) :=
  match op with
  | .seek position => ({ h with cursor := position }, [])
  | .read size =>
    ({ h with cursor := h.cursor + size }, [(h.contents.drop h.cursor).take size])

/-- The sequence of separately-locked operations one `OnDisk` body read
performs, per the source of `load_data` / `get_data` /
`get_data_and_keep_it`: `file.lock().unwrap().seek(SeekFrom::Start(position))`
then, under a second lock acquisition, `file.lock().unwrap().read_exact(..)`
of `size` bytes. -/
def on_disk_read_ops (position size : Nat) : List FileOp :=
  [.seek position, .read size]

/-- Run two threads' operation lists on the shared handle under a schedule:
`true` picks the next operation of the first thread, `false` of the second
(a pick for an exhausted thread is a stutter). Returns the byte chunks each
thread read and the final handle. -/
def run_interleaved : List Bool → List FileOp → List FileOp → FileHandle →
    List (List Nat) × List (List Nat) × FileHandle
  | [], _, _, h => ([], [], h)
  | true :: sched, op :: ops1, ops2, h =>
    let step := run_file_op h op
    let rest := run_interleaved sched ops1 ops2 step.1
    (step.2 ++ rest.1, rest.2.1, rest.2.2)
  | true :: sched, [], ops2, h => run_interleaved sched [] ops2 h
  | false :: sched, ops1, op :: ops2, h =>
    let step := run_file_op h op
    let rest := run_interleaved sched ops1 ops2 step.1
    (rest.1, step.2 ++ rest.2.1, rest.2.2)
  | false :: sched, ops1, [], h => run_interleaved sched ops1 [] h

/-- Decoding in the order the source applies on materialization:
decrypt first, then decompress. -/
def decode_decrypt_then_decompress (data : List Nat) : Except Error (List Nat) :=
  decompress_data (decrypt_packed_file data)

/-- Decoding in the opposite order: decompress first, then decrypt.
Stated so the order of the transforms on materialization can be compared
against it. -/
def decode_decompress_then_decrypt (data : List Nat) : Except Error (List Nat) :=
  match decompress_data data with
  | .ok data => .ok (decrypt_packed_file data)
  | .error e => .error e

/-! Concrete entries used to instantiate the theorems below. -/

/-- A disk-backed entry with no transforms: bytes `[1, 2]` at offset 0 of a
3-byte file. -/
def w_disk : PackedFile :=
  { path := ["ui", "icon"], timestamp := 0, is_compressed := false,
    is_encrypted := none, data := .onDisk [1, 2, 3] 0 2 }

/-- The entry `w_disk` after its body has been loaded into memory. -/
def w_disk_loaded : PackedFile :=
  { w_disk with data := .onMemory [1, 2] false false }

/-- An in-memory entry holding decoded bytes `[5, 6]`. -/
def w_mem : PackedFile :=
  { path := ["ui", "text"], timestamp := 3, is_compressed := false,
    is_encrypted := none, data := .onMemory [5, 6] false false }

/-- Raw on-wire bytes that are the encryption (XOR with the modelled key) of a
valid compressed frame with payload `[7, 9]`: decrypting first and then
decompressing succeeds, while decompressing the raw bytes directly fails on
the malformed length header. -/
def c2_raw_bytes : List Nat := [0xA7, 0xA5, 0xA5, 0xA5, 0xA2, 0xAC]

/-- A disk-backed entry recorded as both compressed and encrypted whose
on-wire bytes are `c2_raw_bytes`. -/
def c2_entry : PackedFile :=
  { path := ["db", "units_tables", "units"], timestamp := 0,
    is_compressed := true, is_encrypted := some .pfh5,
    data := .onDisk c2_raw_bytes 0 6 }

/-- Helper: an entry whose body is in memory, already decoded (both body
flags cleared), is a fixed point of every read path: loading is a no-op,
both read operations return exactly the cached bytes, and
`get_data_and_keep_it` leaves the entry unchanged. -/
theorem decoded_in_memory_stable (q : PackedFile) (d : List Nat)
    (hq : q.data = .onMemory d false false) :
    load_data q = .ok q ∧ get_data q = .ok d ∧
    get_data_and_keep_it q = (.ok d, q) := by
  obtain ⟨p, t, c, e, body⟩ := q
  simp only at hq
  subst hq
  exact ⟨rfl, rfl, rfl⟩

/-- C5: `load_data` is a no-op returning `Ok` and leaving the entry unchanged
when the body is already in memory; when the body is `OnDisk(file, position,
size)` and the read succeeds, it stores exactly the `size` bytes starting at
`position`, untouched, as the in-memory representation, with the cached body
flags set from the entry's `is_compressed` and `is_encrypted` fields. -/
theorem c5_load_data_spec (pf : PackedFile) :
    (∀ d bc be, pf.data = .onMemory d bc be → load_data pf = .ok pf) ∧
    (∀ file position size, pf.data = .onDisk file position size →
      position + size ≤ file.length →
      load_data pf = .ok { pf with data := (.onMemory ((file.drop position).take size)
        pf.is_compressed pf.is_encrypted.isSome) } ∧
      ((file.drop position).take size).length = size) := by
  constructor
  · intro d bc be h
    simp [load_data, h]
  · intro file position size h hle
    constructor
    · simp [load_data, h, read_exact_at, hle]
    · rw [List.length_take, List.length_drop]
      omega

/-- Witness for C5 at concrete entries: `w_mem` is untouched, and `w_disk`
loads bytes `[1, 2]` with the cached flags taken from its fields. -/
theorem c5_load_data_spec_witness :
    load_data w_mem = .ok w_mem ∧ load_data w_disk = .ok w_disk_loaded :=
  ⟨(c5_load_data_spec w_mem).1 [5, 6] false false rfl,
    ((c5_load_data_spec w_disk).2 [1, 2, 3] 0 2 rfl (by decide)).1⟩

/-- C6: `set_data` stores the given bytes as the new in-memory content with
both body flags discarded, and a subsequent `get_data` returns exactly those
bytes with no transform applied. -/
theorem c6_set_data_spec (pf : PackedFile) (b : List Nat) :
    (set_data pf b).data = .onMemory b false false ∧
    get_data (set_data pf b) = .ok b :=
  ⟨rfl, rfl⟩

/-- C7: `get_size` returns the recorded on-wire size for a disk-backed body —
independently of the disk contents, so no I/O is involved — and the length of
the in-memory buffer (as `u32`: reduced modulo 2^32, the identity whenever the
buffer is shorter than 2^32 bytes) for a loaded body. As a plain function of
the entry it mutates nothing. -/
theorem c7_get_size_spec (pf : PackedFile) :
    (∀ file position size, pf.data = .onDisk file position size →
      get_size pf = size ∧
      ∀ file2, get_size { pf with data := .onDisk file2 position size } = size) ∧
    (∀ d bc be, pf.data = .onMemory d bc be →
      get_size pf = d.length % 2 ^ 32 ∧
      (d.length < 2 ^ 32 → get_size pf = d.length)) := by
  constructor
  · intro file position size h
    refine ⟨by simp [get_size, h], fun file2 => by simp [get_size]⟩
  · intro d bc be h
    refine ⟨by simp [get_size, h], fun hlt => ?_⟩
    simp [get_size, h]
    omega

/-- Witness for C7 at concrete entries: on-wire size 2 for `w_disk`,
buffer length 2 for `w_mem`. -/
theorem c7_get_size_spec_witness :
    get_size w_disk = 2 ∧ get_size w_mem = 2 :=
  ⟨((c7_get_size_spec w_disk).1 [1, 2, 3] 0 2 rfl).1,
    ((c7_get_size_spec w_mem).2 [5, 6] false false rfl).2 (by decide)⟩

/-- C8: when no entry of the open archive has the requested path, the
`DecodePackedFileTable` command answers `Error(PackedFileNotFound)` — in
particular never a typed table response — and leaves the archive unchanged. -/
theorem c8_table_not_found
    (decode : PackedFile → Except Error DecodedPackedFile × PackedFile)
    (pack_file : List PackedFile) (path : List String)
    (h : ∀ pf ∈ pack_file, pf.path ≠ path) :
    decode_packed_file_table decode pack_file path =
      (.error .packedFileNotFound, pack_file) := by
  have hfind : get_packed_file_by_path pack_file path = none := by
    rw [get_packed_file_by_path, List.find?_eq_none]
    intro pf hmem
    simp [h pf hmem]
  simp [decode_packed_file_table, hfind]

/-- Witness for C8: looking up a path absent from the one-entry archive
`[w_mem]` answers `PackedFileNotFound` and keeps the archive. -/
theorem c8_table_not_found_witness :
    decode_packed_file_table (fun pf => (.ok .other, pf)) [w_mem] ["missing"] =
      (.error .packedFileNotFound, [w_mem]) :=
  c8_table_not_found (fun pf => (.ok .other, pf)) [w_mem] ["missing"]
    (by intro pf hmem; simp [w_mem] at hmem; simp [hmem, w_mem])

/-- C9: the source acquires the mutex separately for the seek and for the
subsequent read (two `lock()` calls), so the two are distinct critical
sections; under the schedule that runs both seeks before the reads, the first
entry's read returns the bytes at the second entry's offset (`[15, 16]`)
instead of the bytes at its own offset (`[10, 11]`, what the atomic
seek-then-read `read_exact_at` yields). -/
theorem c9_seek_read_not_atomic :
    (run_interleaved [true, false, true, false]
      (on_disk_read_ops 0 2) (on_disk_read_ops 5 2)
      { contents := [10, 11, 12, 13, 14, 15, 16, 17, 18, 19], cursor := 0 }).1
      = [[15, 16]] ∧
    read_exact_at [10, 11, 12, 13, 14, 15, 16, 17, 18, 19] 0 2 = .ok [10, 11] ∧
    [[15, 16]] ≠ ([[10, 11]] : List (List Nat)) := by
  refine ⟨rfl, rfl, by decide⟩

/-- C10: `get_data` takes the entry by shared borrow, so in the state-passing
reading it returns the entry unchanged: a disk-backed body stays on disk
(this read path never caches the materialized bytes). -/
theorem c10_get_data_frame (pf : PackedFile) (file : List Nat)
    (position size : Nat) (h : pf.data = .onDisk file position size) :
    (get_data_st pf).2 = pf ∧
    (get_data_st pf).2.data = .onDisk file position size ∧
    (get_data_st pf).1 = get_data pf := by
  exact ⟨rfl, h, rfl⟩

/-- Witness for C10 at the disk-backed entry `w_disk`. -/
theorem c10_get_data_frame_witness :
    (get_data_st w_disk).2 = w_disk ∧
    (get_data_st w_disk).2.data = .onDisk [1, 2, 3] 0 2 ∧
    (get_data_st w_disk).1 = get_data w_disk :=
  c10_get_data_frame w_disk [1, 2, 3] 0 2 rfl

/-- C2, counterexample: at the entry `c2_entry` — on disk, recorded as both
compressed and encrypted, with on-wire bytes `c2_raw_bytes` — materialization
succeeds with `[7, 9]` (decrypting first, then decompressing), while undoing
the transforms in decompress-then-decrypt order fails on the raw bytes'
malformed compression header; the two decode orders disagree here. -/
theorem c2_decode_order_counterexample :
    (get_data_and_keep_it c2_entry).1 = .ok [7, 9] ∧
    get_data c2_entry = .ok [7, 9] ∧
    decode_decompress_then_decrypt c2_raw_bytes = .error .corruptData ∧
    (get_data_and_keep_it c2_entry).1 ≠ decode_decompress_then_decrypt c2_raw_bytes := by
  refine ⟨rfl, rfl, rfl, by decide⟩

/-- C2, amended: for every disk-backed entry recorded as both compressed and
encrypted, materialization undoes the transforms in decrypt-then-decompress
order — symmetric to the compress-then-encrypt order in which they were
applied — on the raw bytes read from disk. -/
theorem c2_decode_order_amended (pf : PackedFile) (file : List Nat)
    (position size : Nat) (v : PFHVersion) (raw : List Nat)
    (hdata : pf.data = .onDisk file position size)
    (hc : pf.is_compressed = true) (he : pf.is_encrypted = some v)
    (hread : read_exact_at file position size = .ok raw) :
    (get_data_and_keep_it pf).1 = decode_decrypt_then_decompress raw ∧
    get_data pf = decode_decrypt_then_decompress raw := by
  constructor
  · simp only [get_data_and_keep_it, hdata, hread, hc, he, Option.isSome_some,
      if_true, decode_decrypt_then_decompress]
    cases hdec : decompress_data (decrypt_packed_file raw) <;> simp [hdec]
  · simp [get_data, hdata, hread, hc, he, decode_decrypt_then_decompress]

/-- Witness for C2 at the concrete entry `c2_entry`: both materialization
paths return the decrypt-then-decompress decoding of its raw bytes. -/
theorem c2_decode_order_amended_witness :
    (get_data_and_keep_it c2_entry).1 = decode_decrypt_then_decompress c2_raw_bytes ∧
    get_data c2_entry = decode_decrypt_then_decompress c2_raw_bytes :=
  c2_decode_order_amended c2_entry c2_raw_bytes 0 6 .pfh5 c2_raw_bytes
    rfl rfl rfl (by decide)

/-- Helper: the bytes returned by `get_data_and_keep_it` are exactly the
bytes `get_data` returns on the same entry, error cases included. -/
theorem get_data_and_keep_it_fst (pf : PackedFile) :
    (get_data_and_keep_it pf).1 = get_data pf := by
  obtain ⟨p, t, c, e, body⟩ := pf
  cases body with
  | onMemory d bc be =>
    cases bc with
    | false => simp [get_data, get_data_and_keep_it]
    | true =>
      cases be with
      | false =>
        cases hdec : decompress_data d <;>
          simp [get_data, get_data_and_keep_it, hdec]
      | true =>
        cases hdec : decompress_data (decrypt_packed_file d) <;>
          simp [get_data, get_data_and_keep_it, hdec]
  | onDisk file position size =>
    cases hr : read_exact_at file position size with
    | error err => simp [get_data, get_data_and_keep_it, hr]
    | ok raw =>
      cases c with
      | false => simp [get_data, get_data_and_keep_it, hr]
      | true =>
        cases hdec : decompress_data (if e.isSome then decrypt_packed_file raw else raw) <;>
          simp [get_data, get_data_and_keep_it, hr, hdec]

/-- Helper: a successful `load_data` does not change what `get_data`
returns — the loaded entry decodes to the same bytes as the original. -/
theorem get_data_after_load (pf pf2 : PackedFile)
    (h : load_data pf = .ok pf2) : get_data pf2 = get_data pf := by
  obtain ⟨p, t, c, e, body⟩ := pf
  cases body with
  | onMemory d bc be =>
    simp only [load_data, Except.ok.injEq] at h
    rw [← h]
  | onDisk file position size =>
    cases hr : read_exact_at file position size with
    | error err => simp [load_data, hr] at h
    | ok raw =>
      simp only [load_data, hr, Except.ok.injEq] at h
      rw [← h]
      simp [get_data, hr]

/-- Helper: whenever `get_data_and_keep_it` succeeds with bytes `d`, the
resulting entry holds exactly `d` in memory with both body flags cleared. -/
theorem keep_it_ok_data (pf pf2 : PackedFile) (d : List Nat)
    (h : get_data_and_keep_it pf = (.ok d, pf2)) :
    pf2.data = .onMemory d false false := by
  obtain ⟨p, t, c, e, body⟩ := pf
  cases body with
  | onMemory d0 bc be =>
    cases bc with
    | false =>
      simp only [get_data_and_keep_it, Bool.false_eq_true, if_false, Prod.mk.injEq,
        Except.ok.injEq] at h
      rw [← h.2, h.1]
    | true =>
      cases hdec : decompress_data (if be then decrypt_packed_file d0 else d0) with
      | error err =>
        simp [get_data_and_keep_it, hdec] at h
      | ok d2 =>
        simp only [get_data_and_keep_it, if_true, hdec, Prod.mk.injEq,
          Except.ok.injEq] at h
        rw [← h.2, h.1]
  | onDisk file position size =>
    cases hr : read_exact_at file position size with
    | error err => simp [get_data_and_keep_it, hr] at h
    | ok raw =>
      cases hdec : (if c then
          decompress_data (if e.isSome then decrypt_packed_file raw else raw)
        else .ok (if e.isSome then decrypt_packed_file raw else raw)) with
      | error err => simp [get_data_and_keep_it, hr, hdec] at h
      | ok d2 =>
        simp only [get_data_and_keep_it, hr, hdec, Prod.mk.injEq, Except.ok.injEq] at h
        rw [← h.2, h.1]

/-- C1: the decoded bytes are the same on every read path: whenever they
succeed, `get_data` and `get_data_and_keep_it` agree, and `get_data` after a
successful `load_data` agrees with `get_data` on the original entry. -/
theorem c1_read_paths_agree (pf pf2 : PackedFile) (d1 d2 d3 : List Nat) :
    (get_data pf = .ok d1 → (get_data_and_keep_it pf).1 = .ok d2 → d1 = d2) ∧
    (load_data pf = .ok pf2 → get_data pf = .ok d1 → get_data pf2 = .ok d3 → d1 = d3) := by
  constructor
  · intro h1 h2
    rw [get_data_and_keep_it_fst, h1, Except.ok.injEq] at h2
    exact h2
  · intro hl h1 h3
    rw [get_data_after_load pf pf2 hl, h1, Except.ok.injEq] at h3
    exact h3

/-- Witness for C1 at the disk-backed entry `w_disk`: all three read paths
yield `[1, 2]`. -/
theorem c1_read_paths_agree_witness :
    get_data w_disk = .ok [1, 2] ∧
    (get_data_and_keep_it w_disk).1 = .ok [1, 2] ∧
    load_data w_disk = .ok w_disk_loaded ∧
    get_data w_disk_loaded = .ok [1, 2] ∧
    ([1, 2] : List Nat) = [1, 2] :=
  ⟨rfl, rfl, rfl, rfl,
    (c1_read_paths_agree w_disk w_disk_loaded [1, 2] [1, 2] [1, 2]).1 rfl rfl⟩

/-- C3: on an entry that is both encrypted and compressed — whether the body
is in memory with both flags set, or on disk with the entry fields set —
`get_data` and `get_data_and_keep_it` decrypt first and decompress second:
the result is exactly `decompress_data (decrypt_packed_file raw_bytes)`. -/
theorem c3_decrypt_first_decompress_second (pf : PackedFile) :
    (∀ data, pf.data = .onMemory data true true →
      get_data pf = decode_decrypt_then_decompress data ∧
      (get_data_and_keep_it pf).1 = decode_decrypt_then_decompress data) ∧
    (∀ file position size v raw, pf.data = .onDisk file position size →
      pf.is_encrypted = some v → pf.is_compressed = true →
      read_exact_at file position size = .ok raw →
      get_data pf = decode_decrypt_then_decompress raw ∧
      (get_data_and_keep_it pf).1 = decode_decrypt_then_decompress raw) := by
  constructor
  · intro data h
    have hg : get_data pf = decode_decrypt_then_decompress data := by
      simp [get_data, h, decode_decrypt_then_decompress]
    exact ⟨hg, by rw [get_data_and_keep_it_fst, hg]⟩
  · intro file position size v raw h he hc hread
    have hg : get_data pf = decode_decrypt_then_decompress raw := by
      simp [get_data, h, hread, hc, he, decode_decrypt_then_decompress]
    exact ⟨hg, by rw [get_data_and_keep_it_fst, hg]⟩

/-- Witness for C3 at the concrete encrypted-and-compressed entry `c2_entry`
and at its in-memory counterpart. -/
theorem c3_decrypt_first_decompress_second_witness :
    get_data c2_entry = decode_decrypt_then_decompress c2_raw_bytes ∧
    get_data { c2_entry with data := .onMemory c2_raw_bytes true true } =
      decode_decrypt_then_decompress c2_raw_bytes :=
  ⟨((c3_decrypt_first_decompress_second c2_entry).2 c2_raw_bytes 0 6 .pfh5
      c2_raw_bytes rfl rfl rfl (by decide)).1,
    ((c3_decrypt_first_decompress_second
      { c2_entry with data := .onMemory c2_raw_bytes true true }).1
      c2_raw_bytes rfl).1⟩

/-- C4: after a successful `get_data_and_keep_it` the body is in memory with
both cached flags cleared; every subsequent operation (`load_data`,
`get_data` under its state-passing reading, `get_data_and_keep_it`,
`set_data`) keeps the body in memory, and a second `get_data_and_keep_it`
succeeds, returns the same bytes as the first, and changes nothing
(idempotence). -/
theorem c4_keep_it_caches_and_idempotent (pf pf2 : PackedFile) (d : List Nat)
    (h : get_data_and_keep_it pf = (.ok d, pf2)) :
    pf2.data = .onMemory d false false ∧
    load_data pf2 = .ok pf2 ∧
    get_data_and_keep_it pf2 = (.ok d, pf2) ∧
    (get_data_st pf2).2 = pf2 ∧
    ∀ b, (set_data pf2 b).data = .onMemory b false false := by
  have hdata : pf2.data = .onMemory d false false := keep_it_ok_data pf pf2 d h
  obtain ⟨hload, hget, hkeep⟩ := decoded_in_memory_stable pf2 d hdata
  exact ⟨hdata, hload, hkeep, rfl, fun b => rfl⟩

/-- Witness for C4: materializing `w_disk` caches `[1, 2]` in memory and a
second call is the identity on the cached entry. -/
theorem c4_keep_it_caches_and_idempotent_witness :
    w_disk_loaded.data = .onMemory [1, 2] false false ∧
    load_data w_disk_loaded = .ok w_disk_loaded ∧
    get_data_and_keep_it w_disk_loaded = (.ok [1, 2], w_disk_loaded) ∧
    (get_data_st w_disk_loaded).2 = w_disk_loaded ∧
    ∀ b, (set_data w_disk_loaded b).data = .onMemory b false false :=
  c4_keep_it_caches_and_idempotent w_disk w_disk_loaded [1, 2] rfl

end Rpfm
